import Mathlib

/-!
# Risk-Bounded Decision & Ledger Engine — verification development

A shallow embedding of the core of the trading engine (position sizing,
composite scoring, portfolio ledger, risk manager, trade journal) over exact
rational arithmetic, together with theorems settling the specification claims.

Python floats are modelled as exact rationals; Python `round(x, n)`
(banker's rounding on the exact value) is modelled by `pyRound`, and Python
`int(x)` (truncation toward zero) by `pyTrunc`.
-/

namespace Trend

/-- Round half to even, to an integer, as Python `round` does on exact values:
the nearest integer, ties going to the even neighbour. -/
def rhe (q : ℚ) : ℤ :=
  if Int.fract q = 1/2 then (if Even ⌊q⌋ then ⌊q⌋ else ⌊q⌋ + 1) else round q

/-- Python `round(x, n)` on exact rationals. -/
def pyRound (n : ℕ) (q : ℚ) : ℚ := (rhe (q * (10:ℚ)^n) : ℚ) / (10:ℚ)^n

/-- Python `int(x)`: truncation toward zero. -/
def pyTrunc (q : ℚ) : ℤ := if q < 0 then ⌈q⌉ else ⌊q⌋

theorem rhe_le (q : ℚ) : (rhe q : ℚ) ≤ q + 1/2 := by
  unfold rhe
  split
  · rename_i hf
    have hq : q = (⌊q⌋ : ℚ) + 1/2 := by
      have := Int.fract_add_floor q
      rw [hf] at this
      linarith
    split <;> push_cast <;> linarith
  · rw [round_eq]
    exact_mod_cast Int.floor_le (q + 1/2)

theorem le_rhe (q : ℚ) : q - 1/2 ≤ (rhe q : ℚ) := by
  unfold rhe
  split
  · rename_i hf
    have hq : q = (⌊q⌋ : ℚ) + 1/2 := by
      have := Int.fract_add_floor q
      rw [hf] at this
      linarith
    split
    · linarith
    · push_cast
      linarith
  · rw [round_eq]
    have h1 : q + 1/2 - 1 < (⌊q + 1/2⌋ : ℚ) := Int.sub_one_lt_floor (q + 1/2)
    linarith

theorem rhe_le_int {q : ℚ} {c : ℤ} (h : q ≤ (c : ℚ)) : rhe q ≤ c := by
  unfold rhe
  split
  · rename_i hf
    have hq : q = (⌊q⌋ : ℚ) + 1/2 := by
      have := Int.fract_add_floor q
      rw [hf] at this
      linarith
    have hlt : (⌊q⌋ : ℚ) < (c : ℚ) := by rw [hq] at h; linarith
    have hfl : ⌊q⌋ + 1 ≤ c := by
      have : ⌊q⌋ < c := by exact_mod_cast hlt
      omega
    split <;> omega
  · rw [round_eq]
    have h2 : ⌊q + 1/2⌋ ≤ ⌊(c : ℚ) + 1/2⌋ := Int.floor_le_floor (by linarith)
    have h3 : ⌊(c : ℚ) + 1/2⌋ = c := by
      rw [add_comm, Int.floor_add_int]
      norm_num
    omega

theorem int_le_rhe {q : ℚ} {c : ℤ} (h : (c : ℚ) ≤ q) : c ≤ rhe q := by
  unfold rhe
  split
  · have : c ≤ ⌊q⌋ := Int.le_floor.mpr h
    split <;> omega
  · rw [round_eq]
    have : (c : ℚ) ≤ q + 1/2 := by linarith
    exact Int.le_floor.mpr this

theorem pyRound_le (n : ℕ) (q : ℚ) : pyRound n q ≤ q + 1 / (2 * 10 ^ n) := by
  unfold pyRound
  have hpow : (0:ℚ) < (10:ℚ)^n := by positivity
  rw [div_le_iff₀ hpow]
  have := rhe_le (q * (10:ℚ)^n)
  calc (rhe (q * (10:ℚ)^n) : ℚ) ≤ q * (10:ℚ)^n + 1/2 := this
    _ = (q + 1 / (2 * 10 ^ n)) * 10 ^ n := by field_simp; ring

theorem le_pyRound (n : ℕ) (q : ℚ) : q - 1 / (2 * 10 ^ n) ≤ pyRound n q := by
  unfold pyRound
  have hpow : (0:ℚ) < (10:ℚ)^n := by positivity
  rw [le_div_iff₀ hpow]
  have := le_rhe (q * (10:ℚ)^n)
  calc (q - 1 / (2 * 10 ^ n)) * 10 ^ n = q * 10 ^ n - 1/2 := by field_simp; ring
    _ ≤ (rhe (q * (10:ℚ)^n) : ℚ) := this

theorem pyRound_le_of_le {q c : ℚ} (n : ℕ) (hc : c * 10 ^ n = (⌊c * 10 ^ n⌋ : ℚ))
    (h : q ≤ c) : pyRound n q ≤ c := by
  unfold pyRound
  have hpow : (0:ℚ) < (10:ℚ)^n := by positivity
  rw [div_le_iff₀ hpow]
  have h1 : q * 10 ^ n ≤ (⌊c * 10 ^ n⌋ : ℚ) := by
    rw [← hc]
    exact mul_le_mul_of_nonneg_right h (le_of_lt hpow)
  have h2 := rhe_le_int h1
  rw [hc]
  exact_mod_cast h2

theorem le_pyRound_of_le {q c : ℚ} (n : ℕ) (hc : c * 10 ^ n = (⌊c * 10 ^ n⌋ : ℚ))
    (h : c ≤ q) : c ≤ pyRound n q := by
  unfold pyRound
  have hpow : (0:ℚ) < (10:ℚ)^n := by positivity
  rw [le_div_iff₀ hpow]
  have h1 : (⌊c * 10 ^ n⌋ : ℚ) ≤ q * 10 ^ n := by
    rw [← hc]
    exact mul_le_mul_of_nonneg_right h (le_of_lt hpow)
  have h2 := int_le_rhe h1
  rw [hc]
  exact_mod_cast h2

theorem pyRound_eval (n : ℕ) (q : ℚ) (z : ℤ) (h : rhe (q * 10 ^ n) = z) :
    pyRound n q = (z : ℚ) / 10 ^ n := by rw [pyRound, h]

/-! ## Position sizing (`src/analysis/position_sizing.py`) -/

/-- `calculate_position_size(budget, conviction_score, current_price,
max_position_pct=0.20, min_position_thb=5000)`: conviction-scaled allocation
capped at `max_position_pct` of budget, floored to 100-share board lots,
zero if below the minimum trade size. -/
def calculate_position_size (budget conviction_score current_price
    max_position_pct min_position_thb : ℚ) : ℚ :=
  if budget ≤ 0 ∨ conviction_score ≤ 0 ∨ current_price ≤ 0 then 0
  else
    let max_position := budget * max_position_pct
    let conviction_factor := max 0.3 (min 1.0 (conviction_score / 100))
    let raw_amount := max_position * conviction_factor
    let shares : ℤ := pyTrunc (raw_amount / current_price / 100) * 100
    let amount := (shares : ℚ) * current_price
    if amount < min_position_thb then 0 else pyRound 2 amount

/-- `kelly_criterion(win_rate, avg_win, avg_loss)`: half-Kelly fraction,
clamped to `[0, 0.5]`. -/
def kelly_criterion (win_rate avg_win avg_loss : ℚ) : ℚ :=
  if avg_loss ≤ 0 ∨ win_rate ≤ 0 then 0
  else
    let b := avg_win / avg_loss
    let q := 1 - win_rate
    let kelly := (win_rate * b - q) / b
    max 0 (min 0.5 (kelly / 2))

/-! ## Composite scorer (`src/analysis/scoring.py`) -/

/-- The six per-signal scores read by `compute_composite_score`. -/
structure SignalScores where
  technical : ℚ
  sentiment : ℚ
  volume : ℚ
  fundamental : ℚ
  news : ℚ
  fund_flow : ℚ
deriving DecidableEq

/-- The weights mapping: `weights.get(k, 0)` is read for exactly the six
signal keys, so an arbitrary mapping is captured by six rational values. -/
structure Weights where
  technical : ℚ
  sentiment : ℚ
  volume : ℚ
  fundamental : ℚ
  news : ℚ
  fund_flow : ℚ
deriving DecidableEq

/-- `sum(scores[k] * weights.get(k, 0) for k in scores)`. -/
def weightedSum (s : SignalScores) (w : Weights) : ℚ :=
  s.technical * w.technical + s.sentiment * w.sentiment + s.volume * w.volume
    + s.fundamental * w.fundamental + s.news * w.news + s.fund_flow * w.fund_flow

/-- Five-way signal bands at ±30 / ±60. -/
inductive TrendSignal where
  | strongBuy
  | buy
  | hold
  | sell
  | strongSell
deriving DecidableEq

/-- Result record of `compute_composite_score` in `scoring.py`. -/
structure CompositeResult where
  composite_score : ℚ
  signal : TrendSignal
  breakdown : SignalScores
  weights : Weights
deriving DecidableEq

/-- `compute_composite_score`: weighted sum of the six signal scores,
clamped to `[-100, 100]`, rounded to 2 decimals, with signal bands. -/
def compute_composite_score (s : SignalScores) (w : Weights) : CompositeResult :=
  let composite := max (-100) (min 100 (weightedSum s w))
  let signal : TrendSignal :=
    if composite > 60 then .strongBuy
    else if composite > 30 then .buy
    else if composite > -30 then .hold
    else if composite > -60 then .sell
    else .strongSell
  { composite_score := pyRound 2 composite
    signal := signal
    breakdown :=
      ⟨pyRound 2 s.technical, pyRound 2 s.sentiment, pyRound 2 s.volume,
        pyRound 2 s.fundamental, pyRound 2 s.news, pyRound 2 s.fund_flow⟩
    weights := w }

/-- C7: For every assignment of per-signal scores (any rational values, of any
magnitude) and every weights mapping (whether or not its values sum to 1), the
composite score returned by `compute_composite_score` lies in `[-100, 100]`. -/
theorem composite_score_always_clamped (s : SignalScores) (w : Weights) :
    -100 ≤ (compute_composite_score s w).composite_score ∧
      (compute_composite_score s w).composite_score ≤ 100 := by
  have hlow : ((-100 : ℚ)) * 10 ^ 2 = (⌊((-100 : ℚ)) * 10 ^ 2⌋ : ℚ) := by norm_num
  have hhigh : ((100 : ℚ)) * 10 ^ 2 = (⌊((100 : ℚ)) * 10 ^ 2⌋ : ℚ) := by norm_num
  unfold compute_composite_score
  constructor
  · exact le_pyRound_of_le 2 hlow (le_max_left _ _)
  · exact pyRound_le_of_le 2 hhigh (max_le (by norm_num) (min_le_left _ _))

/-- C3 (amended): for `budget > 0`, `price > 0`, `conviction ∈ [30, 100]`,
`max_position_pct = 0.20`, `min_position_thb = 5000`, the computed size is
nonnegative, exceeds `budget * max_position_pct` by at most half a cent
(`1/200`, caused by the final 2-decimal rounding), and is either 0 or the
2-decimal rounding of an exact multiple of `100 * price`; the scenario
budget=100000, conviction=80, price=50 yields exactly 15000. -/
theorem position_size_bounded_and_lot_rounded (budget conviction price : ℚ)
    (hb : 0 < budget) (hc1 : 30 ≤ conviction) (hc2 : conviction ≤ 100)
    (hp : 0 < price) :
    0 ≤ calculate_position_size budget conviction price 0.2 5000 ∧
    calculate_position_size budget conviction price 0.2 5000 ≤ budget * 0.2 + 1/200 ∧
    (calculate_position_size budget conviction price 0.2 5000 = 0 ∨
      ∃ k : ℕ, calculate_position_size budget conviction price 0.2 5000 =
        pyRound 2 ((k : ℚ) * (100 * price))) ∧
    calculate_position_size 100000 80 50 0.2 5000 = 15000 := by
  have hscen : calculate_position_size 100000 80 50 0.2 5000 = 15000 := by
    norm_num [calculate_position_size, pyTrunc, pyRound, rhe, Int.fract, round_eq]
  have hcond : ¬ (budget ≤ 0 ∨ conviction ≤ 0 ∨ price ≤ 0) := by
    push_neg
    exact ⟨hb, by linarith, hp⟩
  have hcf1 : max (0.3 : ℚ) (min 1.0 (conviction / 100)) ≤ 1 := by
    apply max_le (by norm_num)
    exact le_trans (min_le_left _ _) (by norm_num)
  have hcf0 : (0 : ℚ) < max 0.3 (min 1.0 (conviction / 100)) :=
    lt_of_lt_of_le (by norm_num) (le_max_left _ _)
  have hmain : 0 ≤ calculate_position_size budget conviction price 0.2 5000 ∧
      calculate_position_size budget conviction price 0.2 5000 ≤ budget * 0.2 + 1/200 ∧
      (calculate_position_size budget conviction price 0.2 5000 = 0 ∨
        ∃ k : ℕ, calculate_position_size budget conviction price 0.2 5000 =
          pyRound 2 ((k : ℚ) * (100 * price))) := by
    unfold calculate_position_size
    rw [if_neg hcond]
    dsimp only
    set x := budget * 0.2 * max 0.3 (min 1.0 (conviction / 100)) / price / 100 with hxdef
    have hx0 : 0 ≤ x := by
      rw [hxdef]
      have h1 : 0 < budget * 0.2 * max 0.3 (min 1.0 (conviction / 100)) :=
        mul_pos (mul_pos hb (by norm_num)) hcf0
      positivity
    have htr : pyTrunc x = ⌊x⌋ := by
      unfold pyTrunc
      rw [if_neg (not_lt.mpr hx0)]
    rw [htr]
    have hfl0 : 0 ≤ ⌊x⌋ := Int.floor_nonneg.mpr hx0
    have ham0 : 0 ≤ ((⌊x⌋ * 100 : ℤ) : ℚ) * price := by
      apply mul_nonneg _ (le_of_lt hp)
      exact_mod_cast Int.mul_nonneg hfl0 (by norm_num)
    have hamle : ((⌊x⌋ * 100 : ℤ) : ℚ) * price ≤ budget * 0.2 := by
      have h1 : ((⌊x⌋ : ℚ)) ≤ x := Int.floor_le x
      have h2 : ((⌊x⌋ * 100 : ℤ) : ℚ) * price ≤ x * 100 * price := by
        push_cast
        nlinarith
      have h3 : x * 100 * price = budget * 0.2 * max 0.3 (min 1.0 (conviction / 100)) := by
        rw [hxdef]
        field_simp
        ring
      have h4 : budget * 0.2 * max 0.3 (min 1.0 (conviction / 100)) ≤ budget * 0.2 * 1 :=
        mul_le_mul_of_nonneg_left hcf1 (by nlinarith)
      nlinarith
    split_ifs with hlt
    · exact ⟨le_refl 0, by nlinarith, Or.inl rfl⟩
    · have hmin : (5000 : ℚ) ≤ ((⌊x⌋ * 100 : ℤ) : ℚ) * price := not_lt.mp hlt
      refine ⟨?_, ?_, ?_⟩
      · have h5 := le_pyRound 2 (((⌊x⌋ * 100 : ℤ) : ℚ) * price)
        have hpow : (1 : ℚ) / (2 * 10 ^ 2) = 1/200 := by norm_num
        nlinarith
      · have h5 := pyRound_le 2 (((⌊x⌋ * 100 : ℤ) : ℚ) * price)
        have hpow : (1 : ℚ) / (2 * 10 ^ 2) = 1/200 := by norm_num
        nlinarith
      · refine Or.inr ⟨⌊x⌋.toNat, ?_⟩
        congr 1
        have h6 : ((⌊x⌋.toNat : ℤ) : ℚ) = ((⌊x⌋ : ℤ) : ℚ) := by
          exact_mod_cast congrArg Int.cast (Int.toNat_of_nonneg hfl0)
        push_cast at h6 ⊢
        nlinarith [h6]
  exact ⟨hmain.1, hmain.2.1, hmain.2.2, hscen⟩

/-- C3 counterexample: as literally stated the claim fails. With
budget=25000.03, conviction=100, price=50.00006 the returned amount 5000.01
exceeds `budget * 0.20 = 5000.006`; with budget=25010, conviction=100,
price=1/64 the returned amount 5001.56 is neither 0 nor an exact multiple of
`100 * price = 1.5625`: the quotient has nonzero fractional part 0.9984, so
no integer `k` satisfies `5001.56 = k * 1.5625`. -/
theorem position_size_claim_counterexample :
    calculate_position_size 25000.03 100 50.00006 0.2 5000 = 5000.01 ∧
    (25000.03 : ℚ) * 0.2 < 5000.01 ∧
    calculate_position_size 25010 100 (1/64) 0.2 5000 = 5001.56 ∧
    (5001.56 : ℚ) ≠ 0 ∧
    Int.fract ((5001.56 : ℚ) / (100 * (1/64))) = 0.9984 ∧
    (0.9984 : ℚ) ≠ 0 := by
  refine ⟨?_, by norm_num, ?_, by norm_num, ?_, by norm_num⟩
  · norm_num [calculate_position_size, pyTrunc, pyRound, rhe, Int.fract, round_eq]
  · norm_num [calculate_position_size, pyTrunc, pyRound, rhe, Int.fract, round_eq]
  · norm_num [Int.fract]

/-- Witness for C3 at budget=100000, conviction=80, price=50. -/
theorem position_size_bounded_witness :
    0 ≤ calculate_position_size 100000 80 50 0.2 5000 ∧
    calculate_position_size 100000 80 50 0.2 5000 ≤ 100000 * 0.2 + 1/200 ∧
    (calculate_position_size 100000 80 50 0.2 5000 = 0 ∨
      ∃ k : ℕ, calculate_position_size 100000 80 50 0.2 5000 =
        pyRound 2 ((k : ℚ) * (100 * 50))) ∧
    calculate_position_size 100000 80 50 0.2 5000 = 15000 :=
  position_size_bounded_and_lot_rounded 100000 80 50
    (by norm_num) (by norm_num) (by norm_num) (by norm_num)

/-! ## Portfolio ledger (`src/agents/portfolio_agent.py`)

The sqlite state is modelled as a record: the singleton `portfolio` row's
cash balance, the `holdings` rows (symbol unique in the schema), and the
append-only `transactions` rows. -/

/-- A `holdings` row. -/
structure Holding where
  symbol : String
  shares : ℚ
  avg_cost : ℚ
deriving DecidableEq

/-- Transaction direction, `CHECK(action IN ('BUY', 'SELL'))`. -/
inductive Action where
  | BUY
  | SELL
deriving DecidableEq

/-- A `transactions` row. -/
structure Txn where
  symbol : String
  action : Action
  shares : ℚ
  price : ℚ
  amount : ℚ
deriving DecidableEq

/-- The ledger database state. -/
structure PortfolioState where
  cash_balance : ℚ
  holdings : List Holding
  transactions : List Txn
deriving DecidableEq

/-- `SELECT shares, avg_cost FROM holdings WHERE symbol = ?` (symbol is
UNIQUE in the schema, and SELECT returns the first row). -/
def findHolding (hs : List Holding) (symbol : String) : Option Holding :=
  hs.find? (fun h => h.symbol == symbol)

/-- `record_transaction(symbol, action, amount_thb, price)`: computes
`shares = amount_thb / price if price > 0 else 0`; for BUY deducts cash and
upserts the holding (weighted-average cost, guarded against
`new_shares <= 0`); for SELL adds cash and decrements the holding's shares
(no existence or over-sell check); always appends a transaction row. -/
def record_transaction (st : PortfolioState) (symbol : String) (action : Action)
    (amount_thb price : ℚ) : PortfolioState :=
  let shares := if price > 0 then amount_thb / price else 0
  let st1 :=
    match action with
    | .BUY =>
      let holdings' : List Holding :=
        match findHolding st.holdings symbol with
        | some h =>
          let new_shares := h.shares + shares
          let new_avg_cost :=
            if new_shares > 0 then (h.shares * h.avg_cost + amount_thb) / new_shares else 0
          st.holdings.map (fun (g : Holding) =>
            if g.symbol == symbol then (⟨symbol, new_shares, new_avg_cost⟩ : Holding) else g)
        | none => st.holdings ++ [(⟨symbol, shares, price⟩ : Holding)]
      { st with cash_balance := st.cash_balance - amount_thb, holdings := holdings' }
    | .SELL =>
      { st with
        cash_balance := st.cash_balance + amount_thb,
        holdings := st.holdings.map (fun (g : Holding) =>
          if g.symbol == symbol then { g with shares := g.shares - shares } else g) }
  { st1 with transactions :=
      st1.transactions ++ [⟨symbol, action, shares, price, amount_thb⟩] }

/-- One entry of `get_portfolio_status`'s holdings list.  The source has no
live price feed wired (`current_price = h["avg_cost"]  # placeholder`). -/
structure HoldingView where
  symbol : String
  shares : ℚ
  avg_cost : ℚ
  current_price : ℚ
  market_value : ℚ
  pnl : ℚ
  pnl_pct : ℚ
deriving DecidableEq

/-- The per-holding view built by `get_portfolio_status`. -/
def viewOf (h : Holding) : HoldingView :=
  let current_price := h.avg_cost
  let market_value := h.shares * current_price
  let cost_basis := h.shares * h.avg_cost
  let pnl := market_value - cost_basis
  { symbol := h.symbol
    shares := h.shares
    avg_cost := h.avg_cost
    current_price := current_price
    market_value := pyRound 2 market_value
    pnl := pyRound 2 pnl
    pnl_pct := pyRound 2 (if cost_basis > 0 then pnl / cost_basis * 100 else 0) }

/-- Result record of `get_portfolio_status`. -/
structure PortfolioStatus where
  cash_balance : ℚ
  total_market_value : ℚ
  total_portfolio_value : ℚ
  total_pnl : ℚ
  holdings : List HoldingView
deriving DecidableEq

/-- `get_portfolio_status()`: cash plus per-holding views over the rows with
`shares > 0` (`SELECT * FROM holdings WHERE shares > 0`). -/
def get_portfolio_status (st : PortfolioState) : PortfolioStatus :=
  let hs := st.holdings.filter (fun h => h.shares > 0)
  let total_market := (hs.map (fun h => h.shares * h.avg_cost)).sum
  let total_cost := (hs.map (fun h => h.shares * h.avg_cost)).sum
  { cash_balance := pyRound 2 st.cash_balance
    total_market_value := pyRound 2 total_market
    total_portfolio_value := pyRound 2 (st.cash_balance + total_market)
    total_pnl := pyRound 2 (total_market - total_cost)
    holdings := hs.map viewOf }

/-- The status view of the holding for `symbol`, if listed. -/
def statusHolding (ps : PortfolioStatus) (symbol : String) : Option HoldingView :=
  ps.holdings.find? (fun v => v.symbol == symbol)

@[simp] theorem viewOf_symbol (h : Holding) : (viewOf h).symbol = h.symbol := rfl

@[simp] theorem viewOf_shares (h : Holding) : (viewOf h).shares = h.shares := rfl

@[simp] theorem viewOf_avg_cost (h : Holding) : (viewOf h).avg_cost = h.avg_cost := rfl

/-- `find?` commutes with mapping a function that does not change whether an
element matches. -/
theorem find?_map_pres {α : Type} (l : List α) (p : α → Bool) (u : α → α)
    (hu : ∀ a, p (u a) = p a) : (l.map u).find? p = (l.find? p).map u := by
  induction l with
  | nil => rfl
  | cons a t ih =>
    by_cases hpa : p a = true
    · rw [List.map_cons, List.find?_cons_of_pos _ (by rw [hu]; exact hpa),
        List.find?_cons_of_pos _ hpa]
      rfl
    · have hpa' : p a = false := by simpa using hpa
      rw [List.map_cons, List.find?_cons_of_neg _ (by rw [hu]; simp [hpa']),
        List.find?_cons_of_neg _ (by simp [hpa']), ih]

/-- If every element matching `sym` equals `v` and some element matches, then
`find?` returns `v`. -/
theorem find?_symbol_const {l : List Holding} {sym : String} {v : Holding}
    (hall : ∀ h ∈ l, h.symbol = sym → h = v)
    (hex : ∃ h ∈ l, h.symbol = sym) (hv : v.symbol = sym) :
    l.find? (fun h => h.symbol == sym) = some v := by
  induction l with
  | nil => simp at hex
  | cons a t ih =>
    by_cases ha : a.symbol = sym
    · have hav : a = v := hall a (by simp) ha
      rw [List.find?_cons_of_pos _ (by simp [ha]), hav]
    · rw [List.find?_cons_of_neg _ (by simp [ha])]
      refine ih (fun h hm hs => hall h (by simp [hm]) hs) ?_
      obtain ⟨h, hm, hs⟩ := hex
      rcases List.mem_cons.mp hm with rfl | hm'
      · exact absurd hs ha
      · exact ⟨h, hm', hs⟩

/-- Same, through the `shares > 0` filter and the `viewOf` map used by
`get_portfolio_status`, provided `v` itself has positive shares. -/
theorem find?_view_const {l : List Holding} {sym : String} {v : Holding}
    (hall : ∀ h ∈ l, h.symbol = sym → h = v)
    (hex : ∃ h ∈ l, h.symbol = sym) (hv : v.symbol = sym) (hq : 0 < v.shares) :
    ((l.filter (fun h => h.shares > 0)).map viewOf).find?
      (fun x => x.symbol == sym) = some (viewOf v) := by
  induction l with
  | nil => simp at hex
  | cons a t ih =>
    have htail : (∃ h ∈ t, h.symbol = sym) →
        ((t.filter (fun h => h.shares > 0)).map viewOf).find?
          (fun x => x.symbol == sym) = some (viewOf v) :=
      fun hex' => ih (fun h hm hs => hall h (by simp [hm]) hs) hex'
    by_cases ha : a.symbol = sym
    · have hav : a = v := hall a (by simp) ha
      subst hav
      rw [List.filter_cons_of_pos (by simpa using hq), List.map_cons,
        List.find?_cons_of_pos _ (by simp [hv])]
    · have hex' : ∃ h ∈ t, h.symbol = sym := by
        obtain ⟨h, hm, hs⟩ := hex
        rcases List.mem_cons.mp hm with rfl | hm'
        · exact absurd hs ha
        · exact ⟨h, hm', hs⟩
      by_cases hp : a.shares > 0
      · rw [List.filter_cons_of_pos (by simpa using hp), List.map_cons,
          List.find?_cons_of_neg _ (by simp [ha]), htail hex']
      · rw [List.filter_cons_of_neg (by simpa using hp), htail hex']

/-- C1 (amended): a BUY of amount `A` at price `P > 0` deducts exactly `A`
from the stored cash balance (and `get_portfolio_status` reports that cash
rounded to 2 decimals).  On a fresh symbol it inserts a holding with
`shares = A/P`, `avg_cost = P`, visible in the status whenever `A/P > 0`.
On an existing holding `(s0, c0)` it yields `shares = s0 + A/P` and —
*provided the new share count is positive* (the code's `new_shares > 0`
guard; otherwise `avg_cost` is set to 0) — the claimed weighted average
`avg_cost = (s0*c0 + A)/(s0 + A/P)`, exact, visible in the status. -/
theorem buy_updates_cash_and_holding (st : PortfolioState) (sym : String)
    (A P : ℚ) (hP : 0 < P) :
    (record_transaction st sym Action.BUY A P).cash_balance = st.cash_balance - A ∧
    (get_portfolio_status (record_transaction st sym Action.BUY A P)).cash_balance =
      pyRound 2 (st.cash_balance - A) ∧
    (findHolding st.holdings sym = none →
      findHolding (record_transaction st sym Action.BUY A P).holdings sym =
        some ⟨sym, A / P, P⟩ ∧
      (0 < A / P →
        ∃ v, statusHolding (get_portfolio_status (record_transaction st sym Action.BUY A P)) sym =
            some v ∧ v.shares = A / P ∧ v.avg_cost = P)) ∧
    (∀ s0 c0, findHolding st.holdings sym = some ⟨sym, s0, c0⟩ →
      0 < s0 + A / P →
      findHolding (record_transaction st sym Action.BUY A P).holdings sym =
        some ⟨sym, s0 + A / P, (s0 * c0 + A) / (s0 + A / P)⟩ ∧
      ∃ v, statusHolding (get_portfolio_status (record_transaction st sym Action.BUY A P)) sym =
          some v ∧ v.shares = s0 + A / P ∧ v.avg_cost = (s0 * c0 + A) / (s0 + A / P)) := by
  have hsh : (if P > 0 then A / P else 0) = A / P := if_pos hP
  refine ⟨?_, ?_, ?_, ?_⟩
  · simp only [record_transaction, hsh]
  · simp only [record_transaction, get_portfolio_status, hsh]
  · intro hnone
    simp only [findHolding] at hnone
    simp only [record_transaction, hsh, findHolding, hnone, get_portfolio_status,
      statusHolding]
    have hall : ∀ h ∈ st.holdings ++ [(⟨sym, A / P, P⟩ : Holding)],
        h.symbol = sym → h = ⟨sym, A / P, P⟩ := by
      intro h hm hs
      rcases List.mem_append.mp hm with hm' | hm'
      · have := List.find?_eq_none.mp hnone h hm'
        simp [hs] at this
      · simpa using hm'
    have hex : ∃ h ∈ st.holdings ++ [(⟨sym, A / P, P⟩ : Holding)], h.symbol = sym :=
      ⟨⟨sym, A / P, P⟩, by simp, rfl⟩
    constructor
    · exact find?_symbol_const hall hex rfl
    · intro hpos
      exact ⟨viewOf ⟨sym, A / P, P⟩, find?_view_const hall hex rfl hpos, rfl, rfl⟩
  · intro s0 c0 hfind hpos
    simp only [findHolding] at hfind
    have hguard : (if s0 + A / P > 0 then (s0 * c0 + A) / (s0 + A / P) else 0) =
        (s0 * c0 + A) / (s0 + A / P) := if_pos hpos
    simp only [record_transaction, hsh, findHolding, hfind, hguard,
      get_portfolio_status, statusHolding]
    set v : Holding := ⟨sym, s0 + A / P, (s0 * c0 + A) / (s0 + A / P)⟩ with hv
    set u : Holding → Holding :=
      fun g => if g.symbol == sym then v else g with hu
    have hufix : ∀ g : Holding, (fun h : Holding => h.symbol == sym) (u g) =
        (fun h : Holding => h.symbol == sym) g := by
      intro g
      by_cases hg : g.symbol = sym
      · simp [hu, hv, hg]
      · simp [hu, hg]
    have hall : ∀ h ∈ st.holdings.map u, h.symbol = sym → h = v := by
      intro h hm hs
      obtain ⟨g, _, rfl⟩ := List.mem_map.mp hm
      by_cases hg : g.symbol = sym
      · simp [hu, hg]
      · simp only [hu] at hs ⊢
        rw [if_neg (by simp [hg])] at hs ⊢
        exact absurd hs hg
    have hmem : (⟨sym, s0, c0⟩ : Holding) ∈ st.holdings := List.mem_of_find?_eq_some hfind
    have hex : ∃ h ∈ st.holdings.map u, h.symbol = sym := by
      refine ⟨v, ?_, rfl⟩
      have : u ⟨sym, s0, c0⟩ = v := by simp [hu]
      exact this ▸ List.mem_map_of_mem u hmem
    constructor
    · exact find?_symbol_const hall hex rfl
    · exact ⟨viewOf v, find?_view_const hall hex rfl hpos, rfl, rfl⟩

/-- C1 counterexample: the claim's unguarded weighted-average formula fails
when the pre-existing holding has enough negative shares (reachable via
over-selling, see C2) that `s0 + A/P` is not positive.  BUY of 50 at price 1
onto holding `(s0 = -100, c0 = 10)`: the code stores `avg_cost = 0` (its
`new_shares > 0` guard fails), while the claim's formula gives 19. -/
theorem buy_claim_counterexample :
    findHolding (record_transaction ⟨0, [⟨"X", -100, 10⟩], []⟩ "X"
        Action.BUY 50 1).holdings "X" = some ⟨"X", -50, 0⟩ ∧
    ((-100 : ℚ) * 10 + 50) / (-100 + 50 / 1) = 19 ∧ (0 : ℚ) ≠ 19 := by
  refine ⟨?_, by norm_num, by norm_num⟩
  simp only [record_transaction, findHolding]
  norm_num

/-- Witness for C1 on an existing holding: state with cash 100000 and holding
`("B", 200 shares, avg 50)`; BUY 30000 at price 100 yields 500 shares at the
amount-weighted average cost 80, and cash 70000. -/
theorem buy_updates_cash_and_holding_witness :
    (record_transaction ⟨100000, [⟨"B", 200, 50⟩], []⟩ "B"
        Action.BUY 30000 100).cash_balance = 70000 ∧
    findHolding (record_transaction ⟨100000, [⟨"B", 200, 50⟩], []⟩ "B"
        Action.BUY 30000 100).holdings "B" = some ⟨"B", 500, 80⟩ := by
  have h := buy_updates_cash_and_holding ⟨100000, [⟨"B", 200, 50⟩], []⟩ "B"
    30000 100 (by norm_num)
  have h4 := h.2.2.2 200 50 (by simp [findHolding]) (by norm_num)
  refine ⟨?_, ?_⟩
  · rw [h.1]
    norm_num
  · have := h4.1
    norm_num at this
    convert this using 3 <;> norm_num

/-- C2: a SELL at price `P > 0` succeeds unconditionally: cash increases by
exactly `A` and the holding's shares decrease by `A/P`, with no over-sell
check — the stored shares simply go negative when `A/P` exceeds them. -/
theorem sell_unconditional (st : PortfolioState) (sym : String) (A P : ℚ)
    (hP : 0 < P) (s0 c0 : ℚ)
    (hfind : findHolding st.holdings sym = some ⟨sym, s0, c0⟩) :
    (record_transaction st sym Action.SELL A P).cash_balance = st.cash_balance + A ∧
    findHolding (record_transaction st sym Action.SELL A P).holdings sym =
      some ⟨sym, s0 - A / P, c0⟩ := by
  have hsh : (if P > 0 then A / P else 0) = A / P := if_pos hP
  constructor
  · simp only [record_transaction, hsh]
  · simp only [record_transaction, hsh, findHolding]
    rw [find?_map_pres _ _ _ (fun g => by by_cases hg : g.symbol = sym <;> simp [hg])]
    rw [show st.holdings.find? (fun h => h.symbol == sym) = some ⟨sym, s0, c0⟩ from hfind]
    simp

/-- Witness for C2: selling 5 THB at price 1 from a holding of only 2 shares
adds 5 to cash and leaves the stored shares at the negative value -3. -/
theorem sell_unconditional_witness :
    (record_transaction ⟨100, [⟨"A", 2, 10⟩], []⟩ "A"
        Action.SELL 5 1).cash_balance = 105 ∧
    findHolding (record_transaction ⟨100, [⟨"A", 2, 10⟩], []⟩ "A"
        Action.SELL 5 1).holdings "A" = some ⟨"A", -3, 10⟩ ∧
    (-3 : ℚ) < 0 := by
  have h := sell_unconditional ⟨100, [⟨"A", 2, 10⟩], []⟩ "A" 5 1 (by norm_num)
    2 10 (by simp [findHolding])
  refine ⟨?_, ?_, by norm_num⟩
  · rw [h.1]
    norm_num
  · have := h.2
    norm_num at this
    convert this using 3 <;> norm_num

/-! ## Risk manager (`src/analysis/risk_manager.py`) -/

/-- The `risk_management` configuration block. -/
structure RiskConfig where
  max_position_pct : ℚ
  total_deployment_cap : ℚ
  stop_loss_pct : ℚ
  daily_loss_halt_pct : ℚ
  max_sector_pct : ℚ
  portfolio_heat_high : ℚ
  portfolio_heat_medium : ℚ
deriving DecidableEq

/-- The fallback defaults hard-coded in `_load_config`. -/
def defaultRiskConfig : RiskConfig :=
  { max_position_pct := 0.15
    total_deployment_cap := 0.50
    stop_loss_pct := -0.15
    daily_loss_halt_pct := -0.05
    max_sector_pct := 0.40
    portfolio_heat_high := 0.15
    portfolio_heat_medium := 0.08 }

/-- `_get_portfolio_data`: only the rows with `shares > 0` are returned. -/
def portfolioHoldings (st : PortfolioState) : List Holding :=
  st.holdings.filter (fun h => h.shares > 0)

/-- `_get_current_price(sym) or h["avg_cost"]`: the price lookup returns 0.0
on failure, and Python `or` also falls back on an exact-0 price.  The
external collaborator is the function `prices`. -/
def effPrice (prices : String → ℚ) (h : Holding) : ℚ :=
  if prices h.symbol = 0 then h.avg_cost else prices h.symbol

/-- One holding's market value, current price with `avg_cost` fallback. -/
def holdingValue (prices : String → ℚ) (h : Holding) : ℚ :=
  h.shares * effPrice prices h

/-- `total_market` accumulated over a holdings list. -/
def marketValue (prices : String → ℚ) (hs : List Holding) : ℚ :=
  (hs.map (holdingValue prices)).sum

/-- A `daily_snapshots` row (`snapshot_date` modelled as a natural number,
ISO date strings being totally ordered). -/
structure Snapshot where
  snapshot_date : ℕ
  total_value : ℚ
  cash_balance : ℚ
  market_value : ℚ
  daily_pnl : ℚ
  daily_pnl_pct : ℚ
deriving DecidableEq

/-- `SELECT total_value FROM daily_snapshots WHERE snapshot_date < ?
ORDER BY snapshot_date DESC LIMIT 1`: the snapshot with the greatest date
strictly before `today`. -/
def latestBefore (snaps : List Snapshot) (today : ℕ) : Option Snapshot :=
  (snaps.filter (fun s => s.snapshot_date < today)).foldl
    (fun acc s =>
      match acc with
      | none => some s
      | some b => if b.snapshot_date < s.snapshot_date then some s else some b)
    none

/-- Result record of `check_daily_loss_halt`; the no-baseline branch returns
`{"halt_active": False, "reason": "No previous snapshot — run 'snapshot'
first", ...}`, modelled by the `no_baseline` flag. -/
structure HaltResult where
  halt_active : Bool
  no_baseline : Bool
  previous_value : Option ℚ
  current_value : ℚ
  daily_change_pct : ℚ
deriving DecidableEq

/-- `check_daily_loss_halt()`: compares the current total portfolio value
with the most recent snapshot strictly before today. -/
def check_daily_loss_halt (cfg : RiskConfig) (st : PortfolioState)
    (prices : String → ℚ) (snaps : List Snapshot) (today : ℕ) : HaltResult :=
  let current_total := st.cash_balance + marketValue prices (portfolioHoldings st)
  match latestBefore snaps today with
  | none =>
    { halt_active := false
      no_baseline := true
      previous_value := none
      current_value := pyRound 2 current_total
      daily_change_pct := 0 }
  | some prev =>
    let prev_value := prev.total_value
    let daily_change :=
      if prev_value > 0 then (current_total - prev_value) / prev_value else 0
    { halt_active := decide (daily_change ≤ cfg.daily_loss_halt_pct)
      no_baseline := false
      previous_value := some (pyRound 2 prev_value)
      current_value := pyRound 2 current_total
      daily_change_pct := pyRound 4 daily_change }

/-- C4 (amended): with no snapshot strictly before today, the halt is
reported inactive with the explicit no-baseline reason.  With a baseline of
*positive* `total_value` (the code's `prev_value > 0` guard; a non-positive
baseline yields `daily_change = 0`, hence no halt), `halt_active` is true
iff `(current - previous)/previous ≤ daily_loss_halt_pct`, where current is
cash plus holding market values with `avg_cost` fallback. -/
theorem daily_loss_halt_spec (cfg : RiskConfig) (st : PortfolioState)
    (prices : String → ℚ) (snaps : List Snapshot) (today : ℕ) :
    (latestBefore snaps today = none →
      (check_daily_loss_halt cfg st prices snaps today).halt_active = false ∧
      (check_daily_loss_halt cfg st prices snaps today).no_baseline = true) ∧
    (∀ prev, latestBefore snaps today = some prev → 0 < prev.total_value →
      ((check_daily_loss_halt cfg st prices snaps today).halt_active = true ↔
        (st.cash_balance + marketValue prices (portfolioHoldings st)
            - prev.total_value) / prev.total_value ≤ cfg.daily_loss_halt_pct) ∧
      (check_daily_loss_halt cfg st prices snaps today).no_baseline = false) := by
  constructor
  · intro hnone
    simp [check_daily_loss_halt, hnone]
  · intro prev hprev hpos
    simp only [check_daily_loss_halt, hprev]
    rw [if_pos hpos]
    exact ⟨decide_eq_true_iff, by trivial⟩

/-- C4 counterexample: the unguarded iff fails when the baseline
`total_value` is not positive (reachable, since cash has no floor).  With
baseline -1000 and current value 0, `(0 - (-1000))/(-1000) = -1 ≤ -0.05`,
so the claim says the halt is active, but the code reports no halt. -/
theorem daily_loss_halt_claim_counterexample :
    (check_daily_loss_halt defaultRiskConfig ⟨0, [], []⟩ (fun _ => 0)
        [⟨1, -1000, 0, 0, 0, 0⟩] 2).halt_active = false ∧
    ((0 : ℚ) - (-1000)) / (-1000) ≤ defaultRiskConfig.daily_loss_halt_pct := by
  constructor
  · have hlb : latestBefore [⟨1, -1000, 0, 0, 0, 0⟩] 2 = some ⟨1, -1000, 0, 0, 0, 0⟩ := by
      simp [latestBefore]
    simp only [check_daily_loss_halt, hlb]
    rw [if_neg (by norm_num)]
    norm_num [defaultRiskConfig]
  · norm_num [defaultRiskConfig]

/-- Witness for C4: the spec scenario — baseline 100000, current 94000,
threshold -5% — activates the halt (-6% ≤ -5%). -/
theorem daily_loss_halt_spec_witness :
    (check_daily_loss_halt defaultRiskConfig ⟨94000, [], []⟩ (fun _ => 0)
        [⟨1, 100000, 0, 0, 0, 0⟩] 2).halt_active = true := by
  have h := (daily_loss_halt_spec defaultRiskConfig ⟨94000, [], []⟩ (fun _ => 0)
      [⟨1, 100000, 0, 0, 0, 0⟩] 2).2 ⟨1, 100000, 0, 0, 0, 0⟩
    (by simp [latestBefore]) (by norm_num)
  exact h.1.mpr (by norm_num [marketValue, portfolioHoldings, defaultRiskConfig])

/-- Warnings produced by `check_position_limits`. -/
inductive LimitWarning where
  | positionLimit
  | deploymentCap
deriving DecidableEq

/-- Result record of `check_position_limits`. -/
structure LimitResult where
  symbol : String
  requested_amount : ℚ
  allowed : Bool
  allowed_amount : ℚ
  position_pct : ℚ
  deployment_pct : ℚ
  warnings : List LimitWarning
deriving DecidableEq

/-- The loop body of `check_position_limits`: accumulates `total_market` and
overwrites `existing_value` when the row is the proposed symbol. -/
def limitsStep (prices : String → ℚ) (symbol : String) (acc : ℚ × ℚ)
    (h : Holding) : ℚ × ℚ :=
  let value := holdingValue prices h
  (acc.1 + value, if h.symbol == symbol then value else acc.2)

/-- `check_position_limits(symbol, amount)`: per-symbol position cap and
total deployment cap against the live holdings, with warnings that do not
by themselves zero the allowed amount. -/
def check_position_limits (cfg : RiskConfig) (st : PortfolioState)
    (prices : String → ℚ) (symbol : String) (amount : ℚ) : LimitResult :=
  let hs := portfolioHoldings st
  let acc := hs.foldl (limitsStep prices symbol) (0, 0)
  let total_market := acc.1
  let existing_value := acc.2
  let total_value := st.cash_balance + total_market
  let new_position_value := existing_value + amount
  let position_pct := if total_value > 0 then new_position_value / total_value else 0
  let max_allowed_position := total_value * cfg.max_position_pct - existing_value
  let warnings1 : List LimitWarning :=
    if position_pct > cfg.max_position_pct then [.positionLimit] else []
  let new_deployed := if total_value > 0 then (total_market + amount) / total_value else 0
  let max_deploy_amount := total_value * cfg.total_deployment_cap - total_market
  let warnings2 : List LimitWarning :=
    if new_deployed > cfg.total_deployment_cap then [.deploymentCap] else []
  let warnings := warnings1 ++ warnings2
  let allowed_amount :=
    min (max 0 max_allowed_position) (min (max 0 max_deploy_amount) amount)
  { symbol := symbol
    requested_amount := amount
    allowed := warnings.isEmpty
    allowed_amount := pyRound 2 allowed_amount
    position_pct := pyRound 4 position_pct
    deployment_pct := pyRound 4 new_deployed
    warnings := warnings }

/-- The claim's `total_market`: Σ shares × price (with fallback) over the
positive-share holdings. -/
def totalMarketOf (st : PortfolioState) (prices : String → ℚ) : ℚ :=
  marketValue prices (portfolioHoldings st)

/-- The claim's `total_value`: cash + total market value. -/
def totalValueOf (st : PortfolioState) (prices : String → ℚ) : ℚ :=
  st.cash_balance + totalMarketOf st prices

/-- The claim's `existing_value`: the proposed symbol's current market
value. -/
def existingValueOf (st : PortfolioState) (prices : String → ℚ)
    (symbol : String) : ℚ :=
  (((portfolioHoldings st).filter (fun h => h.symbol == symbol)).map
    (holdingValue prices)).sum

theorem limitsStep_fold_fst (prices : String → ℚ) (symbol : String)
    (hs : List Holding) (a b : ℚ) :
    (hs.foldl (limitsStep prices symbol) (a, b)).1 = a + marketValue prices hs := by
  induction hs generalizing a b with
  | nil => simp [marketValue]
  | cons h t ih =>
    simp only [List.foldl_cons, limitsStep]
    rw [ih]
    simp only [marketValue, List.map_cons, List.sum_cons]
    ring

theorem limitsStep_fold_snd_of_no_match (prices : String → ℚ) (symbol : String)
    (hs : List Holding) (a b : ℚ)
    (hno : ∀ h ∈ hs, ¬ h.symbol = symbol) :
    (hs.foldl (limitsStep prices symbol) (a, b)).2 = b := by
  induction hs generalizing a b with
  | nil => rfl
  | cons h t ih =>
    simp only [List.foldl_cons, limitsStep]
    rw [if_neg (by simpa using hno h (List.mem_cons_self h t))]
    exact ih _ _ (fun g hg => hno g (List.mem_cons_of_mem h hg))

theorem limitsStep_fold_snd (prices : String → ℚ) (symbol : String)
    (hs : List Holding) (a : ℚ)
    (hnd : (hs.map (fun h => h.symbol)).Nodup) :
    (hs.foldl (limitsStep prices symbol) (a, 0)).2 =
      ((hs.filter (fun h => h.symbol == symbol)).map (holdingValue prices)).sum := by
  induction hs generalizing a with
  | nil => simp
  | cons h t ih =>
    have hnd' : (t.map (fun g => g.symbol)).Nodup := (List.nodup_cons.mp hnd).2
    have hnotin : h.symbol ∉ t.map (fun g => g.symbol) := (List.nodup_cons.mp hnd).1
    simp only [List.foldl_cons, limitsStep]
    by_cases hm : h.symbol = symbol
    · rw [if_pos (by simp [hm])]
      have hnomatch : ∀ g ∈ t, ¬ g.symbol = symbol := by
        intro g hg hgs
        apply hnotin
        rw [hm, ← hgs]
        exact List.mem_map_of_mem _ hg
      rw [limitsStep_fold_snd_of_no_match _ _ _ _ _ hnomatch,
        List.filter_cons_of_pos (by simp [hm])]
      have ht : t.filter (fun g => g.symbol == symbol) = [] :=
        List.filter_eq_nil.mpr (by intro g hg; simpa using hnomatch g hg)
      simp [ht]
    · rw [if_neg (by simp [hm]), List.filter_cons_of_neg (by simp [hm])]
      exact ih _ hnd'

/-- C6: `check_position_limits(symbol, proposed_amount)` returns
`allowed_amount = min(max(0, total_value*max_position_pct - existing_value),
max(0, total_value*total_deployment_cap - total_market), proposed_amount)`
rounded to 2 decimals; `allowed` is true iff no warning fired; and each cap
violation produces its warning without by itself blocking (the allowed
amount is the same formula whether or not warnings fired). -/
theorem position_limits_formula (cfg : RiskConfig) (st : PortfolioState)
    (prices : String → ℚ) (symbol : String) (amount : ℚ)
    (hnd : ((portfolioHoldings st).map (fun h => h.symbol)).Nodup) :
    (check_position_limits cfg st prices symbol amount).allowed_amount =
      pyRound 2 (min
        (max 0 (totalValueOf st prices * cfg.max_position_pct
          - existingValueOf st prices symbol))
        (min (max 0 (totalValueOf st prices * cfg.total_deployment_cap
          - totalMarketOf st prices)) amount)) ∧
    ((check_position_limits cfg st prices symbol amount).allowed = true ↔
      (check_position_limits cfg st prices symbol amount).warnings = []) ∧
    (LimitWarning.positionLimit ∈
        (check_position_limits cfg st prices symbol amount).warnings ↔
      (if totalValueOf st prices > 0 then
        (existingValueOf st prices symbol + amount) / totalValueOf st prices
      else 0) > cfg.max_position_pct) ∧
    (LimitWarning.deploymentCap ∈
        (check_position_limits cfg st prices symbol amount).warnings ↔
      (if totalValueOf st prices > 0 then
        (totalMarketOf st prices + amount) / totalValueOf st prices
      else 0) > cfg.total_deployment_cap) := by
  have hfst := limitsStep_fold_fst prices symbol (portfolioHoldings st) 0 0
  have hsnd := limitsStep_fold_snd prices symbol (portfolioHoldings st) 0 hnd
  rw [zero_add] at hfst
  simp only [check_position_limits, hfst, hsnd]
  simp only [totalValueOf, totalMarketOf, existingValueOf]
  refine ⟨by trivial, ?_, ?_, ?_⟩
  · exact List.isEmpty_iff
  · by_cases h1 : (if st.cash_balance + marketValue prices (portfolioHoldings st) > 0 then
        ((((portfolioHoldings st).filter (fun h => h.symbol == symbol)).map
          (holdingValue prices)).sum + amount) /
          (st.cash_balance + marketValue prices (portfolioHoldings st))
      else 0) > cfg.max_position_pct <;>
    by_cases h2 : (if st.cash_balance + marketValue prices (portfolioHoldings st) > 0 then
        (marketValue prices (portfolioHoldings st) + amount) /
          (st.cash_balance + marketValue prices (portfolioHoldings st))
      else 0) > cfg.total_deployment_cap <;>
    simp [h1, h2]
  · by_cases h1 : (if st.cash_balance + marketValue prices (portfolioHoldings st) > 0 then
        ((((portfolioHoldings st).filter (fun h => h.symbol == symbol)).map
          (holdingValue prices)).sum + amount) /
          (st.cash_balance + marketValue prices (portfolioHoldings st))
      else 0) > cfg.max_position_pct <;>
    by_cases h2 : (if st.cash_balance + marketValue prices (portfolioHoldings st) > 0 then
        (marketValue prices (portfolioHoldings st) + amount) /
          (st.cash_balance + marketValue prices (portfolioHoldings st))
      else 0) > cfg.total_deployment_cap <;>
    simp [h1, h2]

/-- Witness for C6: cash 100000, one holding of 100 shares of "P" priced 60
(market 6000, total 106000); proposing 20000 for "P" trims the allowed
amount to the per-symbol cap headroom 9900 and fires the position-limit
warning, so `allowed` is false yet the allowed amount stays positive. -/
theorem position_limits_formula_witness :
    (check_position_limits defaultRiskConfig ⟨100000, [⟨"P", 100, 50⟩], []⟩
        (fun _ => 60) "P" 20000).allowed_amount = 9900 ∧
    ((check_position_limits defaultRiskConfig ⟨100000, [⟨"P", 100, 50⟩], []⟩
        (fun _ => 60) "P" 20000).allowed = true ↔
      (check_position_limits defaultRiskConfig ⟨100000, [⟨"P", 100, 50⟩], []⟩
        (fun _ => 60) "P" 20000).warnings = []) ∧
    LimitWarning.positionLimit ∈
      (check_position_limits defaultRiskConfig ⟨100000, [⟨"P", 100, 50⟩], []⟩
        (fun _ => 60) "P" 20000).warnings := by
  have h := position_limits_formula defaultRiskConfig ⟨100000, [⟨"P", 100, 50⟩], []⟩
    (fun _ => 60) "P" 20000 (by simp [portfolioHoldings])
  refine ⟨?_, h.2.1, ?_⟩
  · rw [h.1]
    norm_num [totalValueOf, totalMarketOf, existingValueOf, marketValue,
      holdingValue, effPrice, portfolioHoldings, defaultRiskConfig, pyRound,
      rhe, Int.fract, round_eq]
  · apply h.2.2.1.mpr
    norm_num [totalValueOf, totalMarketOf, existingValueOf, marketValue,
      holdingValue, effPrice, portfolioHoldings, defaultRiskConfig]

/-! ## Daily snapshots (`record_daily_snapshot` in `risk_manager.py`) -/

/-- `INSERT ... ON CONFLICT(snapshot_date) DO UPDATE SET ...`: replace the
row with the same date if one exists, else append. -/
def upsertSnapshot (snaps : List Snapshot) (row : Snapshot) : List Snapshot :=
  if snaps.any (fun s => s.snapshot_date == row.snapshot_date) then
    snaps.map (fun s => if s.snapshot_date == row.snapshot_date then row else s)
  else snaps ++ [row]

/-- The row computed by `record_daily_snapshot`: today's valuation with
`daily_pnl` against the most recent snapshot strictly before today. -/
def snapshotRow (st : PortfolioState) (prices : String → ℚ)
    (snaps : List Snapshot) (today : ℕ) : Snapshot :=
  let total_market := marketValue prices (portfolioHoldings st)
  let total_value := st.cash_balance + total_market
  let prev := latestBefore snaps today
  let daily_pnl :=
    match prev with
    | none => 0
    | some p => total_value - p.total_value
  let daily_pnl_pct :=
    match prev with
    | none => 0
    | some p =>
      if p.total_value > 0 then (total_value - p.total_value) / p.total_value else 0
  ⟨today, total_value, st.cash_balance, total_market, daily_pnl, daily_pnl_pct⟩

/-- `record_daily_snapshot()`: upsert today's snapshot row. -/
def record_daily_snapshot (st : PortfolioState) (prices : String → ℚ)
    (snaps : List Snapshot) (today : ℕ) : List Snapshot :=
  upsertSnapshot snaps (snapshotRow st prices snaps today)

theorem filter_map_invariant {α : Type} {l : List α} {u : α → α} {q : α → Bool}
    (h : ∀ a ∈ l, q (u a) = q a ∧ (q a = true → u a = a)) :
    (l.map u).filter q = l.filter q := by
  induction l with
  | nil => rfl
  | cons a t ih =>
    have ha := h a (List.mem_cons_self a t)
    have ih' := ih (fun g hg => h g (List.mem_cons_of_mem a hg))
    by_cases hq : q a = true
    · rw [List.map_cons, List.filter_cons_of_pos (by rw [ha.1]; exact hq),
        List.filter_cons_of_pos hq, ha.2 hq, ih']
    · rw [List.map_cons, List.filter_cons_of_neg (by rw [ha.1]; exact hq),
        List.filter_cons_of_neg hq, ih']

theorem filter_map_comm {α : Type} {l : List α} {u : α → α} {q : α → Bool}
    (h : ∀ a ∈ l, q (u a) = q a) :
    (l.map u).filter q = (l.filter q).map u := by
  induction l with
  | nil => rfl
  | cons a t ih =>
    have ha := h a (List.mem_cons_self a t)
    have ih' := ih (fun g hg => h g (List.mem_cons_of_mem a hg))
    by_cases hq : q a = true
    · rw [List.map_cons, List.filter_cons_of_pos (by rw [ha]; exact hq),
        List.filter_cons_of_pos hq, List.map_cons, ih']
    · rw [List.map_cons, List.filter_cons_of_neg (by rw [ha]; exact hq),
        List.filter_cons_of_neg hq, ih']

theorem find?_const_of_matches {α : Type} {l : List α} {p : α → Bool} {v : α}
    (hall : ∀ a ∈ l, p a = true → a = v)
    (hex : ∃ a ∈ l, p a = true) (hv : p v = true) :
    l.find? p = some v := by
  induction l with
  | nil => simp at hex
  | cons a t ih =>
    by_cases hpa : p a = true
    · rw [List.find?_cons_of_pos _ hpa, hall a (List.mem_cons_self a t) hpa]
    · rw [List.find?_cons_of_neg _ hpa]
      refine ih (fun g hg => hall g (List.mem_cons_of_mem a hg)) ?_
      obtain ⟨g, hg, hpg⟩ := hex
      rcases List.mem_cons.mp hg with rfl | hg'
      · exact absurd hpg hpa
      · exact ⟨g, hg', hpg⟩

theorem filter_key_length_le_one {α : Type} {l : List α} (f : α → ℕ) (c : ℕ)
    (hnd : (l.map f).Nodup) :
    (l.filter (fun a => f a == c)).length ≤ 1 := by
  induction l with
  | nil => simp
  | cons a t ih =>
    have hnd' : (t.map f).Nodup := (List.nodup_cons.mp hnd).2
    have hnotin : f a ∉ t.map f := (List.nodup_cons.mp hnd).1
    by_cases ha : f a = c
    · rw [List.filter_cons_of_pos (by simp [ha])]
      have ht : t.filter (fun g => f g == c) = [] := by
        apply List.filter_eq_nil.mpr
        intro g hg
        simp only [beq_iff_eq]
        intro hgc
        exact hnotin (by rw [ha, ← hgc]; exact List.mem_map_of_mem f hg)
      simp [ht]
    · rw [List.filter_cons_of_neg (by simp [ha])]
      exact ih hnd'

/-- One run of `record_daily_snapshot` from a date-distinct state: exactly
one today-row (the freshly computed one), other dates untouched,
date-distinctness preserved, baseline lookup unchanged. -/
theorem record_daily_snapshot_run (st : PortfolioState) (prices : String → ℚ)
    (snaps : List Snapshot) (today : ℕ)
    (hnd : (snaps.map (fun s => s.snapshot_date)).Nodup) :
    ((record_daily_snapshot st prices snaps today).filter
      (fun s => s.snapshot_date == today)).length = 1 ∧
    (record_daily_snapshot st prices snaps today).filter
        (fun s => s.snapshot_date != today) =
      snaps.filter (fun s => s.snapshot_date != today) ∧
    ((record_daily_snapshot st prices snaps today).map
      (fun s => s.snapshot_date)).Nodup ∧
    latestBefore (record_daily_snapshot st prices snaps today) today =
      latestBefore snaps today ∧
    (record_daily_snapshot st prices snaps today).find?
      (fun s => s.snapshot_date == today) = some (snapshotRow st prices snaps today) := by
  have hdate : (snapshotRow st prices snaps today).snapshot_date = today := rfl
  unfold record_daily_snapshot upsertSnapshot
  rw [hdate]
  by_cases hany : snaps.any (fun s => s.snapshot_date == today) = true
  · rw [if_pos hany]
    obtain ⟨s0, hs0, hs0t⟩ := List.any_eq_true.mp hany
    have hdates : ∀ s : Snapshot,
        ((if s.snapshot_date == today then snapshotRow st prices snaps today
          else s)).snapshot_date = s.snapshot_date := by
      intro s
      by_cases hs : s.snapshot_date = today
      · rw [if_pos (by simp [hs]), hdate, hs]
      · rw [if_neg (by simp [hs])]
    refine ⟨?_, ?_, ?_, ?_, ?_⟩
    · rw [filter_map_comm (fun a _ => by rw [hdates a]), List.length_map]
      have hle : (snaps.filter (fun s => s.snapshot_date == today)).length ≤ 1 :=
        filter_key_length_le_one (fun s : Snapshot => s.snapshot_date) today hnd
      have hge : 0 < (snaps.filter (fun s => s.snapshot_date == today)).length := by
        apply List.length_pos.mpr
        intro hnil
        have := List.filter_eq_nil.mp hnil s0 hs0
        exact this hs0t
      omega
    · exact filter_map_invariant (fun a _ => ⟨by rw [hdates a], fun hq => by
        rw [if_neg (by simpa using hq)]⟩)
    · rw [List.map_map]
      have : ((fun s : Snapshot => s.snapshot_date) ∘
          (fun s => if s.snapshot_date == today then snapshotRow st prices snaps today
            else s)) = fun s : Snapshot => s.snapshot_date := by
        funext s
        exact hdates s
      rw [this]
      exact hnd
    · unfold latestBefore
      rw [filter_map_invariant (fun a _ => ⟨by rw [hdates a], fun hq => by
        have : a.snapshot_date ≠ today := by
          intro he
          simp [he] at hq
        rw [if_neg (by simpa using this)]⟩)]
    · refine find?_const_of_matches ?_ ?_ (by simp [hdate])
      · intro a ha hpa
        obtain ⟨g, _, rfl⟩ := List.mem_map.mp ha
        by_cases hg : g.snapshot_date = today
        · rw [if_pos (by simp [hg])]
        · rw [if_neg (by simp [hg])] at hpa ⊢
          exact absurd (by simpa using hpa) hg
      · refine ⟨snapshotRow st prices snaps today, ?_, by simp [hdate]⟩
        have hmem := List.mem_map_of_mem
          (fun s => if s.snapshot_date == today then snapshotRow st prices snaps today
            else s) hs0
        simp only at hmem
        rw [if_pos hs0t] at hmem
        exact hmem
  · rw [if_neg hany]
    have hno : ∀ s ∈ snaps, (s.snapshot_date == today) = false := by
      intro s hs
      by_contra hc
      exact hany (List.any_eq_true.mpr ⟨s, hs, by simpa using hc⟩)
    have hfilnil : snaps.filter (fun s => s.snapshot_date == today) = [] :=
      List.filter_eq_nil.mpr (fun s hs => by simp [hno s hs])
    refine ⟨?_, ?_, ?_, ?_, ?_⟩
    · rw [List.filter_append, hfilnil]
      simp [hdate]
    · rw [List.filter_append]
      have : ([snapshotRow st prices snaps today].filter
          (fun s => s.snapshot_date != today)) = [] := by
        simp [hdate]
      rw [this, List.append_nil]
    · rw [List.map_append, List.nodup_append]
      refine ⟨hnd, by simp, ?_⟩
      intro d hd
      simp only [List.map_cons, List.map_nil, hdate, List.mem_singleton]
      intro he
      obtain ⟨g, hg, rfl⟩ := List.mem_map.mp hd
      have := hno g hg
      rw [he] at this
      simp at this
    · unfold latestBefore
      rw [List.filter_append]
      have : ([snapshotRow st prices snaps today].filter
          (fun s => decide (s.snapshot_date < today))) = [] := by
        simp [hdate]
      rw [this, List.append_nil]
    · refine find?_const_of_matches ?_ ?_ (by simp [hdate])
      · intro a ha hpa
        rcases List.mem_append.mp ha with ha' | ha'
        · rw [hno a ha'] at hpa
          exact absurd hpa (by simp)
        · simpa using ha'
      · exact ⟨snapshotRow st prices snaps today, by simp, by simp [hdate]⟩

/-- `snapshotRow` reads the snapshot table only through `latestBefore`. -/
theorem snapshotRow_congr (st : PortfolioState) (prices : String → ℚ)
    {snaps₁ snaps₂ : List Snapshot} {today : ℕ}
    (h : latestBefore snaps₁ today = latestBefore snaps₂ today) :
    snapshotRow st prices snaps₁ today = snapshotRow st prices snaps₂ today := by
  unfold snapshotRow
  rw [h]

/-- C8: `record_daily_snapshot` is idempotent per calendar date.  From any
state whose snapshot dates are distinct: the updated table has exactly one
row for today; rows of all other dates are untouched; date-distinctness is
preserved; the strictly-before-today baseline lookup is unchanged; the today
row equals the freshly computed row; and a same-day re-run (from any
portfolio and prices) still has exactly one today-row, which is overwritten
with the re-computed row whose `daily_pnl` baseline is the original
strictly-earlier snapshot — so re-runs never change the baseline. -/
theorem daily_snapshot_idempotent (st : PortfolioState) (prices : String → ℚ)
    (snaps : List Snapshot) (today : ℕ)
    (hnd : (snaps.map (fun s => s.snapshot_date)).Nodup) :
    ((record_daily_snapshot st prices snaps today).filter
      (fun s => s.snapshot_date == today)).length = 1 ∧
    (record_daily_snapshot st prices snaps today).filter
        (fun s => s.snapshot_date != today) =
      snaps.filter (fun s => s.snapshot_date != today) ∧
    ((record_daily_snapshot st prices snaps today).map
      (fun s => s.snapshot_date)).Nodup ∧
    latestBefore (record_daily_snapshot st prices snaps today) today =
      latestBefore snaps today ∧
    (record_daily_snapshot st prices snaps today).find?
      (fun s => s.snapshot_date == today) =
      some (snapshotRow st prices snaps today) ∧
    (∀ (st₂ : PortfolioState) (prices₂ : String → ℚ),
      ((record_daily_snapshot st₂ prices₂
          (record_daily_snapshot st prices snaps today) today).filter
        (fun s => s.snapshot_date == today)).length = 1 ∧
      (record_daily_snapshot st₂ prices₂
          (record_daily_snapshot st prices snaps today) today).find?
        (fun s => s.snapshot_date == today) =
        some (snapshotRow st₂ prices₂ snaps today)) := by
  obtain ⟨h1, h2, h3, h4, h5⟩ := record_daily_snapshot_run st prices snaps today hnd
  refine ⟨h1, h2, h3, h4, h5, ?_⟩
  intro st₂ prices₂
  obtain ⟨g1, _, _, _, g5⟩ := record_daily_snapshot_run st₂ prices₂
    (record_daily_snapshot st prices snaps today) today h3
  exact ⟨g1, by rw [g5, snapshotRow_congr st₂ prices₂ h4]⟩

/-- Witness for C8: one prior snapshot dated 1 with total 100; running the
snapshot on day 2 from a portfolio of cash 120 (no holdings) stores the row
(date 2, total 120, pnl +20, +20%) and leaves day 1 untouched. -/
theorem daily_snapshot_idempotent_witness :
    ((record_daily_snapshot ⟨120, [], []⟩ (fun _ => 0) [⟨1, 100, 100, 0, 0, 0⟩] 2).filter
      (fun s => s.snapshot_date == 2)).length = 1 ∧
    (record_daily_snapshot ⟨120, [], []⟩ (fun _ => 0) [⟨1, 100, 100, 0, 0, 0⟩] 2).find?
      (fun s => s.snapshot_date == 2) = some ⟨2, 120, 120, 0, 20, 0.2⟩ := by
  have h := daily_snapshot_idempotent ⟨120, [], []⟩ (fun _ => 0)
    [⟨1, 100, 100, 0, 0, 0⟩] 2 (by simp)
  refine ⟨h.1, ?_⟩
  rw [h.2.2.2.2.1]
  have : snapshotRow ⟨120, [], []⟩ (fun _ => 0) [⟨1, 100, 100, 0, 0, 0⟩] 2 =
      ⟨2, 120, 120, 0, 20, 0.2⟩ := by
    have hlb : latestBefore [(⟨1, 100, 100, 0, 0, 0⟩ : Snapshot)] 2 =
        some ⟨1, 100, 100, 0, 0, 0⟩ := by simp [latestBefore]
    simp only [snapshotRow, hlb, marketValue, portfolioHoldings]
    norm_num
  rw [this]

/-! ## Action plan (`src/agents/action_plan_agent.py`) -/

theorem pyRound_zero (n : ℕ) : pyRound n 0 = 0 := by
  norm_num [pyRound, rhe, Int.fract, round_eq]

/-- Action of one plan entry; SKIP is the per-symbol failure fallback. -/
inductive PlanAction where
  | BUY
  | SELL
  | HOLD
  | SKIP
deriving DecidableEq

/-- The risk warnings attached to a plan entry (strings in the source). -/
inductive PlanWarning where
  | haltOverride
  | positionLimit
  | deploymentCap
  | amountReduced
  | buyBlocked
deriving DecidableEq

/-- Limit-check warnings as surfaced in the plan. -/
def PlanWarning.ofLimit : LimitWarning → PlanWarning
  | .positionLimit => .positionLimit
  | .deploymentCap => .deploymentCap

/-- Per-symbol analysis input to the plan loop: the composite score and
technical close produced by `_run_full_analysis`, or a failure (the
`except` branch, yielding a SKIP row). -/
structure StockInput where
  symbol : String
  score : ℚ
  close : ℚ
  failed : Bool
deriving DecidableEq

/-- One action of the emitted plan. -/
structure PlanItem where
  symbol : String
  action : PlanAction
  composite_score : ℚ
  amount_thb : ℚ
  warnings : List PlanWarning
deriving DecidableEq

/-- The per-stock body of `generate_action_plan`'s loop, parameterized by
the position sizer and the limit check it calls. -/
def processStock (halt_active : Bool) (sizer : ℚ → ℚ → ℚ → ℚ)
    (limitCheck : String → ℚ → LimitResult) (budget : ℚ)
    (stock : StockInput) : PlanItem :=
  if stock.failed then
    { symbol := stock.symbol, action := .SKIP, composite_score := 0,
      amount_thb := 0, warnings := [] }
  else
    let score := stock.score
    let action0 : PlanAction :=
      if score > 30 then .BUY else if score < -30 then .SELL else .HOLD
    let step : PlanAction × ℚ × List PlanWarning :=
      if action0 = .BUY then
        if halt_active then (.HOLD, 0, [.haltOverride])
        else
          let amount := sizer budget score stock.close
          if amount > 0 then
            let lc := limitCheck stock.symbol amount
            if lc.allowed = false then
              let ws := lc.warnings.map PlanWarning.ofLimit
              if lc.allowed_amount > 0 then
                (.BUY, lc.allowed_amount, ws ++ [.amountReduced])
              else (.HOLD, 0, ws ++ [.buyBlocked])
            else (.BUY, amount, [])
          else (.BUY, amount, [])
      else (action0, 0, [])
    { symbol := stock.symbol
      action := step.1
      composite_score := pyRound 2 score
      amount_thb := pyRound 2 step.2.1
      warnings := step.2.2 }

/-- The `_summarize` counts. -/
structure ActionPlanSummary where
  buy_count : ℕ
  sell_count : ℕ
  hold_count : ℕ
  skip_count : ℕ
  total_buy_amount : ℚ
deriving DecidableEq

/-- `_summarize(actions)`. -/
def summarize (actions : List PlanItem) : ActionPlanSummary :=
  { buy_count := (actions.filter (fun a => a.action == .BUY)).length
    sell_count := (actions.filter (fun a => a.action == .SELL)).length
    hold_count := (actions.filter (fun a => a.action == .HOLD)).length
    skip_count := (actions.filter (fun a => a.action == .SKIP)).length
    total_buy_amount :=
      ((actions.filter (fun a => a.action == .BUY)).map (fun a => a.amount_thb)).sum }

/-- The emitted action plan. -/
structure ActionPlan where
  budget : ℚ
  actions : List PlanItem
  summary : ActionPlanSummary
  risk_warnings : List PlanWarning
deriving DecidableEq

/-- `generate_action_plan(budget)`: consults the daily-loss halt once, then
runs the per-stock pipeline over the watchlist, aggregating warnings. -/
def generate_action_plan (cfg : RiskConfig) (st : PortfolioState)
    (prices : String → ℚ) (snaps : List Snapshot) (today : ℕ)
    (sizer : ℚ → ℚ → ℚ → ℚ) (watchlist : List StockInput)
    (budget : ℚ) : ActionPlan :=
  let daily_halt := check_daily_loss_halt cfg st prices snaps today
  let halt_active := daily_halt.halt_active
  let actions := watchlist.map
    (processStock halt_active sizer (check_position_limits cfg st prices) budget)
  { budget := budget
    actions := actions
    summary := summarize actions
    risk_warnings := actions.foldl (fun acc a => acc ++ a.warnings)
      (if halt_active then [PlanWarning.haltOverride] else []) }

theorem processStock_halt_no_buy (sizer : ℚ → ℚ → ℚ → ℚ)
    (limitCheck : String → ℚ → LimitResult) (budget : ℚ) (stock : StockInput) :
    (processStock true sizer limitCheck budget stock).action ≠ PlanAction.BUY := by
  unfold processStock
  by_cases hf : stock.failed = true
  · rw [if_pos hf]
    simp
  · rw [if_neg hf]
    dsimp only
    by_cases hb : (if stock.score > 30 then PlanAction.BUY
        else if stock.score < -30 then PlanAction.SELL else PlanAction.HOLD) =
        PlanAction.BUY
    · rw [if_pos hb]
      simp
    · rw [if_neg hb]
      exact hb

theorem processStock_halt_sizer_irrelevant (sizer₁ sizer₂ : ℚ → ℚ → ℚ → ℚ)
    (limitCheck : String → ℚ → LimitResult) (budget : ℚ) (stock : StockInput) :
    processStock true sizer₁ limitCheck budget stock =
      processStock true sizer₂ limitCheck budget stock := by
  unfold processStock
  by_cases hf : stock.failed = true
  · rw [if_pos hf, if_pos hf]
  · rw [if_neg hf, if_neg hf]
    dsimp only
    by_cases hb : (if stock.score > 30 then PlanAction.BUY
        else if stock.score < -30 then PlanAction.SELL else PlanAction.HOLD) =
        PlanAction.BUY
    · rw [if_pos hb, if_pos hb]
      simp
    · rw [if_neg hb, if_neg hb]

/-- C5: when the daily-loss halt is active at the start of
`generate_action_plan`, the plan contains no BUY action; every non-failed
symbol with composite score above 30 is downgraded to HOLD with amount 0 and
the explicit halt warning; and position sizing is never invoked — the plan
is identical for any two sizing functions. -/
theorem halt_blocks_all_buys (cfg : RiskConfig) (st : PortfolioState)
    (prices : String → ℚ) (snaps : List Snapshot) (today : ℕ)
    (sizer₁ sizer₂ : ℚ → ℚ → ℚ → ℚ) (watchlist : List StockInput) (budget : ℚ)
    (hhalt : (check_daily_loss_halt cfg st prices snaps today).halt_active = true) :
    (∀ a ∈ (generate_action_plan cfg st prices snaps today sizer₁ watchlist
        budget).actions, a.action ≠ PlanAction.BUY) ∧
    (∀ stock ∈ watchlist, stock.failed = false → 30 < stock.score →
      processStock true sizer₁ (check_position_limits cfg st prices) budget stock =
        { symbol := stock.symbol, action := .HOLD,
          composite_score := pyRound 2 stock.score, amount_thb := 0,
          warnings := [.haltOverride] } ∧
      processStock true sizer₁ (check_position_limits cfg st prices) budget stock ∈
        (generate_action_plan cfg st prices snaps today sizer₁ watchlist
          budget).actions) ∧
    generate_action_plan cfg st prices snaps today sizer₁ watchlist budget =
      generate_action_plan cfg st prices snaps today sizer₂ watchlist budget := by
  have hmap : watchlist.map (processStock
        ((check_daily_loss_halt cfg st prices snaps today).halt_active) sizer₁
        (check_position_limits cfg st prices) budget) =
      watchlist.map (processStock true sizer₁
        (check_position_limits cfg st prices) budget) := by
    rw [hhalt]
  refine ⟨?_, ?_, ?_⟩
  · intro a ha
    simp only [generate_action_plan] at ha
    rw [hmap] at ha
    obtain ⟨stock, _, rfl⟩ := List.mem_map.mp ha
    exact processStock_halt_no_buy _ _ _ _
  · intro stock hmem hfail hscore
    constructor
    · unfold processStock
      rw [if_neg (by simp [hfail])]
      dsimp only
      rw [if_pos (by rw [if_pos (by exact hscore)]), if_pos rfl]
      simp [pyRound_zero]
    · simp only [generate_action_plan]
      rw [hmap]
      exact List.mem_map_of_mem _ hmem
  · simp only [generate_action_plan]
    rw [hhalt]
    have : watchlist.map (processStock true sizer₁
          (check_position_limits cfg st prices) budget) =
        watchlist.map (processStock true sizer₂
          (check_position_limits cfg st prices) budget) :=
      List.map_congr_left (fun stock _ =>
        processStock_halt_sizer_irrelevant sizer₁ sizer₂ _ budget stock)
    rw [this]

/-- Witness for C5: with the halt active (baseline 100000, current 94000),
the symbol "A" with score 50 is emitted as HOLD, amount 0, with the halt
warning. -/
theorem halt_blocks_all_buys_witness :
    processStock true (fun _ _ _ => 0)
        (check_position_limits defaultRiskConfig ⟨94000, [], []⟩ (fun _ => 0))
        100000 ⟨"A", 50, 10, false⟩ =
      ⟨"A", PlanAction.HOLD, 50, 0, [PlanWarning.haltOverride]⟩ := by
  have hhalt : (check_daily_loss_halt defaultRiskConfig ⟨94000, [], []⟩
      (fun _ => 0) [⟨1, 100000, 0, 0, 0, 0⟩] 2).halt_active = true := by
    have hlb : latestBefore [(⟨1, 100000, 0, 0, 0, 0⟩ : Snapshot)] 2 =
        some ⟨1, 100000, 0, 0, 0, 0⟩ := by simp [latestBefore]
    simp only [check_daily_loss_halt, hlb]
    rw [if_pos (by norm_num)]
    norm_num [defaultRiskConfig, marketValue, portfolioHoldings]
  have h := halt_blocks_all_buys defaultRiskConfig ⟨94000, [], []⟩ (fun _ => 0)
    [⟨1, 100000, 0, 0, 0, 0⟩] 2 (fun _ _ _ => 0) (fun _ _ _ => 0)
    [⟨"A", 50, 10, false⟩] 100000 hhalt
  have h2 := (h.2.1 ⟨"A", 50, 10, false⟩ (by simp) rfl (by norm_num)).1
  rw [h2]
  norm_num [pyRound, rhe, Int.fract, round_eq]

/-! ## Trade journal (`src/analysis/trade_journal.py`) -/

/-- `status IN ('OPEN', 'CLOSED', 'STOPPED_OUT')`. -/
inductive TradeStatus where
  | OPEN
  | CLOSED
  | STOPPED_OUT
deriving DecidableEq

/-- A `trade_journal` row.  `created_at` is the ordering key used by
`ORDER BY created_at DESC`; `exit_price` is NULL until close. -/
structure JournalRow where
  id : ℕ
  symbol : String
  action : Action
  entry_price : ℚ
  exit_price : Option ℚ
  shares : ℚ
  amount : ℚ
  pnl : ℚ
  pnl_pct : ℚ
  status : TradeStatus
  created_at : ℕ
deriving DecidableEq

/-- Result of `close_trade`: the two error dicts and the success dict. -/
inductive CloseResult where
  | provideKey
  | noOpenTrade
  | closed (id : ℕ) (pnl : ℚ) (pnl_pct : ℚ)
deriving DecidableEq

/-- `SELECT * FROM trade_journal WHERE symbol = ? AND status = 'OPEN'
ORDER BY created_at DESC LIMIT 1`. -/
def latestOpenFor (j : List JournalRow) (symbol : String) : Option JournalRow :=
  (j.filter (fun r => r.symbol == symbol && r.status == TradeStatus.OPEN)).foldl
    (fun acc r =>
      match acc with
      | none => some r
      | some b => if b.created_at < r.created_at then some r else some b)
    none

/-- The body of `close_trade` once an OPEN row `t` is located: directional
P&L, `pnl_pct` guarded by `entry_price * shares > 0`, and the row update. -/
def closeRow (j : List JournalRow) (t : JournalRow) (exit_price : ℚ)
    (status : TradeStatus) : CloseResult × List JournalRow :=
  let pnl :=
    match t.action with
    | .BUY => (exit_price - t.entry_price) * t.shares
    | .SELL => (t.entry_price - exit_price) * t.shares
  let pnl_pct :=
    if t.entry_price * t.shares > 0 then pnl / (t.entry_price * t.shares) else 0
  (CloseResult.closed t.id (pyRound 2 pnl) (pyRound 4 pnl_pct),
    j.map (fun r =>
      if r.id == t.id then
        { r with
          exit_price := some exit_price
          pnl := pyRound 2 pnl
          pnl_pct := pyRound 4 pnl_pct
          status := status }
      else r))

/-- `close_trade(trade_id, symbol, exit_price, ..., status)`.  Python
truthiness: `if trade_id:` is false for `None` and for 0, `elif symbol:` is
false for `None` and for the empty string. -/
def close_trade (j : List JournalRow) (trade_id : Option ℕ)
    (symbol : Option String) (exit_price : ℚ) (status : TradeStatus) :
    CloseResult × List JournalRow :=
  if trade_id.getD 0 ≠ 0 then
    match j.find? (fun r => r.id == trade_id.getD 0 &&
        r.status == TradeStatus.OPEN) with
    | none => (.noOpenTrade, j)
    | some t => closeRow j t exit_price status
  else if symbol.getD "" ≠ "" then
    match latestOpenFor j (symbol.getD "") with
    | none => (.noOpenTrade, j)
    | some t => closeRow j t exit_price status
  else (.provideKey, j)

/-- C9: `close_trade` on a trade id, or on a symbol, with no matching row in
status OPEN returns the explicit no-open-trade error and leaves the journal
unchanged — no row inserted, updated or deleted. -/
theorem close_trade_no_open (j : List JournalRow) (exit_price : ℚ)
    (status : TradeStatus) :
    (∀ tid : ℕ, tid ≠ 0 →
      j.find? (fun r => r.id == tid && r.status == TradeStatus.OPEN) = none →
      close_trade j (some tid) none exit_price status =
        (CloseResult.noOpenTrade, j)) ∧
    (∀ sym : String, sym ≠ "" →
      (∀ r ∈ j, r.symbol = sym → r.status ≠ TradeStatus.OPEN) →
      close_trade j none (some sym) exit_price status =
        (CloseResult.noOpenTrade, j)) := by
  constructor
  · intro tid htid hfind
    unfold close_trade
    rw [if_pos (by simpa using htid)]
    simp only [Option.getD_some]
    rw [hfind]
  · intro sym hsym hno
    unfold close_trade
    rw [if_neg (by simp)]
    rw [if_pos (by simpa using hsym)]
    simp only [Option.getD_some]
    have hfil : j.filter (fun r => r.symbol == sym &&
        r.status == TradeStatus.OPEN) = [] := by
      apply List.filter_eq_nil.mpr
      intro r hr
      simp only [Bool.and_eq_true, beq_iff_eq, not_and]
      intro hrs
      exact hno r hr hrs
    unfold latestOpenFor
    rw [hfil]
    rfl

/-- Witness for C9: a journal with one CLOSED row for "A" (id 1): closing by
id 1 and closing by symbol "A" both report no open trade and leave the
journal unchanged. -/
theorem close_trade_no_open_witness :
    close_trade [⟨1, "A", Action.BUY, 10, none, 100, 1000, 0, 0,
        TradeStatus.CLOSED, 5⟩] (some 1) none 12 TradeStatus.CLOSED =
      (CloseResult.noOpenTrade, [⟨1, "A", Action.BUY, 10, none, 100, 1000, 0, 0,
        TradeStatus.CLOSED, 5⟩]) ∧
    close_trade [⟨1, "A", Action.BUY, 10, none, 100, 1000, 0, 0,
        TradeStatus.CLOSED, 5⟩] none (some "A") 12 TradeStatus.CLOSED =
      (CloseResult.noOpenTrade, [⟨1, "A", Action.BUY, 10, none, 100, 1000, 0, 0,
        TradeStatus.CLOSED, 5⟩]) := by
  have h := close_trade_no_open [⟨1, "A", Action.BUY, 10, none, 100, 1000, 0, 0,
    TradeStatus.CLOSED, 5⟩] 12 TradeStatus.CLOSED
  constructor
  · exact h.1 1 (by norm_num) (by simp)
  · refine h.2 "A" (by simp) ?_
    intro r hr _
    simp only [List.mem_singleton] at hr
    subst hr
    simp

/-- `WHERE status IN ('CLOSED', 'STOPPED_OUT')`. -/
def closedTrades (j : List JournalRow) : List JournalRow :=
  j.filter (fun r => r.status == TradeStatus.CLOSED ||
    r.status == TradeStatus.STOPPED_OUT)

/-- Result record of `get_win_rate`; `profit_factor = none` encodes the
`float('inf')` returned when there is no gross loss. -/
structure WinRateStats where
  total_trades : ℕ
  wins : ℕ
  losses : ℕ
  stopped_out : ℕ
  win_rate : ℚ
  avg_win : ℚ
  avg_loss : ℚ
  avg_win_pct : ℚ
  avg_loss_pct : ℚ
  total_pnl : ℚ
  profit_factor : Option ℚ
  kelly_fraction : ℚ
deriving DecidableEq

/-- `get_win_rate()`: win/loss partition (`pnl > 0` wins, `pnl <= 0`
losses), averages, profit factor and Kelly fraction over closed trades;
`none` models the early "no closed trades yet" return. -/
def get_win_rate (j : List JournalRow) : Option WinRateStats :=
  let closed := closedTrades j
  if closed.isEmpty then none
  else
    let wins := closed.filter (fun t => t.pnl > 0)
    let losses := closed.filter (fun t => t.pnl ≤ 0)
    let stopped := closed.filter (fun t => t.status == TradeStatus.STOPPED_OUT)
    let total := closed.length
    let win_count := wins.length
    let loss_count := losses.length
    let win_rate := if total > 0 then (win_count : ℚ) / total else 0
    let avg_win :=
      if win_count > 0 then (wins.map (fun t => t.pnl)).sum / win_count else 0
    let avg_loss :=
      if loss_count > 0 then |(losses.map (fun t => t.pnl)).sum / loss_count| else 0
    let total_pnl := (closed.map (fun t => t.pnl)).sum
    let gross_profit := (wins.map (fun t => t.pnl)).sum
    let gross_loss := |(losses.map (fun t => t.pnl)).sum|
    let profit_factor : Option ℚ :=
      if gross_loss > 0 then some (gross_profit / gross_loss) else none
    let kelly := if avg_loss > 0 then kelly_criterion win_rate avg_win avg_loss else 0
    let avg_win_pct :=
      if win_count > 0 then (wins.map (fun t => t.pnl_pct)).sum / win_count else 0
    let avg_loss_pct :=
      if loss_count > 0 then (losses.map (fun t => t.pnl_pct)).sum / loss_count else 0
    some { total_trades := total
           wins := win_count
           losses := loss_count
           stopped_out := stopped.length
           win_rate := pyRound 4 win_rate
           avg_win := pyRound 2 avg_win
           avg_loss := pyRound 2 avg_loss
           avg_win_pct := pyRound 4 avg_win_pct
           avg_loss_pct := pyRound 4 avg_loss_pct
           total_pnl := pyRound 2 total_pnl
           profit_factor := profit_factor.map (pyRound 2)
           kelly_fraction := pyRound 4 kelly }

theorem filter_pnl_partition_length (l : List JournalRow) :
    (l.filter (fun t => t.pnl > 0)).length +
      (l.filter (fun t => t.pnl ≤ 0)).length = l.length := by
  induction l with
  | nil => rfl
  | cons a t ih =>
    by_cases h : a.pnl > 0
    · rw [List.filter_cons_of_pos (by simpa using h),
        List.filter_cons_of_neg (by simpa using not_le.mpr h)]
      simp only [List.length_cons]
      omega
    · rw [List.filter_cons_of_neg (by simpa using h),
        List.filter_cons_of_pos (by simpa using not_lt.mp h)]
      simp only [List.length_cons]
      omega

theorem loss_sum_ignores_zero_pnl (l : List JournalRow) :
    ((l.filter (fun t => t.pnl ≤ 0)).map (fun t => t.pnl)).sum =
      ((l.filter (fun t => t.pnl < 0)).map (fun t => t.pnl)).sum := by
  induction l with
  | nil => rfl
  | cons a t ih =>
    rcases lt_trichotomy a.pnl 0 with h | h | h
    · rw [List.filter_cons_of_pos (by simpa using le_of_lt h),
        List.filter_cons_of_pos (by simpa using h)]
      simp only [List.map_cons, List.sum_cons, ih]
    · rw [List.filter_cons_of_pos (by simp [h]),
        List.filter_cons_of_neg (by simp [h])]
      simp only [List.map_cons, List.sum_cons, ih, h]
      ring
    · rw [List.filter_cons_of_neg (by simpa using not_le.mpr h),
        List.filter_cons_of_neg (by simpa using not_lt.mpr (le_of_lt h))]
      exact ih

/-- C10 (amended): whenever there is at least one closed trade,
`get_win_rate` counts exactly the CLOSED/STOPPED_OUT trades with `pnl > 0`
as wins and those with `pnl ≤ 0` — zero-P&L trades included — as losses;
wins + losses = total_trades; the reported `win_rate` is `wins /
total_trades` *rounded to 4 decimals*; the reported `avg_loss` is the
absolute mean of the loss-side P&Ls rounded to 2 decimals (zero-P&L trades
enter its denominator while contributing 0 to the sum, as the last conjunct
states). -/
theorem win_rate_partition (j : List JournalRow) (hne : closedTrades j ≠ []) :
    ∃ s, get_win_rate j = some s ∧
      s.wins = ((closedTrades j).filter (fun t => t.pnl > 0)).length ∧
      s.losses = ((closedTrades j).filter (fun t => t.pnl ≤ 0)).length ∧
      s.wins + s.losses = s.total_trades ∧
      s.total_trades = (closedTrades j).length ∧
      s.win_rate = pyRound 4 ((s.wins : ℚ) / (s.total_trades : ℚ)) ∧
      s.avg_loss = pyRound 2
        |(((closedTrades j).filter (fun t => t.pnl ≤ 0)).map
            (fun t => t.pnl)).sum / (s.losses : ℚ)| ∧
      (((closedTrades j).filter (fun t => t.pnl ≤ 0)).map (fun t => t.pnl)).sum =
        (((closedTrades j).filter (fun t => t.pnl < 0)).map (fun t => t.pnl)).sum := by
  have hlen : 0 < (closedTrades j).length := List.length_pos.mpr hne
  unfold get_win_rate
  rw [if_neg (by simpa using hne)]
  dsimp only
  refine ⟨_, rfl, ?_, ?_, ?_, ?_, ?_, ?_, loss_sum_ignores_zero_pnl _⟩
  · rfl
  · rfl
  · exact filter_pnl_partition_length (closedTrades j)
  · rfl
  · rw [if_pos hlen]
  · by_cases hl : 0 < ((closedTrades j).filter (fun t => t.pnl ≤ 0)).length
    · rw [if_pos hl]
    · rw [if_neg hl]
      have hnil : (closedTrades j).filter (fun t => t.pnl ≤ 0) = [] :=
        List.length_eq_zero.mp (by omega)
      rw [hnil]
      simp [pyRound_zero]

set_option maxRecDepth 4000 in
/-- C10 counterexample: the claim's exact `win_rate = wins / total_trades`
fails against the code's 4-decimal rounding.  Three closed trades with P&L
+1, -1 and 0: the zero-P&L trade counts as a loss (losses = 2) and the
reported win rate is 0.3333, not 1/3. -/
theorem win_rate_claim_counterexample :
    get_win_rate
      [⟨1, "A", Action.BUY, 10, none, 1, 10, 1, 0, TradeStatus.CLOSED, 1⟩,
       ⟨2, "A", Action.BUY, 10, none, 1, 10, -1, 0, TradeStatus.CLOSED, 2⟩,
       ⟨3, "A", Action.BUY, 10, none, 1, 10, 0, 0, TradeStatus.CLOSED, 3⟩] =
      some ⟨3, 1, 2, 0, 0.3333, 1, 0.5, 0, 0, 0, some 1, 0⟩ ∧
    (0.3333 : ℚ) ≠ 1 / 3 := by
  have e1 : (TradeStatus.CLOSED == TradeStatus.STOPPED_OUT) = false := by decide
  have e2 : (TradeStatus.CLOSED == TradeStatus.CLOSED) = true := by decide
  constructor
  · unfold get_win_rate closedTrades
    norm_num [List.filter_cons, e1, e2]
    have habs : |(1:ℚ)/2| = 1/2 := by norm_num
    simp only [habs]
    have hk : kelly_criterion (1/3) 1 ((1:ℚ)/2) = 0 := by norm_num [kelly_criterion]
    rw [hk]
    refine ⟨?_, ?_, ?_, pyRound_zero 4, pyRound_zero 2, ?_, pyRound_zero 4⟩
    · rw [pyRound_eval 4 ((1:ℚ)/3) 3333 (by norm_num [rhe, Int.fract, round_eq])]
      norm_num
    · rw [pyRound_eval 2 (1:ℚ) 100 (by norm_num [rhe, Int.fract, round_eq])]
      norm_num
    · rw [pyRound_eval 2 ((1:ℚ)/2) 50 (by norm_num [rhe, Int.fract, round_eq])]
      norm_num
    · rw [pyRound_eval 2 (1:ℚ) 100 (by norm_num [rhe, Int.fract, round_eq])]
      norm_num
  · norm_num

/-- Witness for C10 at the same three-trade journal: the partition puts the
zero-P&L trade among the losses. -/
theorem win_rate_partition_witness :
    ∃ s, get_win_rate
        [⟨1, "A", Action.BUY, 10, none, 1, 10, 1, 0, TradeStatus.CLOSED, 1⟩,
         ⟨2, "A", Action.BUY, 10, none, 1, 10, -1, 0, TradeStatus.CLOSED, 2⟩,
         ⟨3, "A", Action.BUY, 10, none, 1, 10, 0, 0, TradeStatus.CLOSED, 3⟩] =
        some s ∧ s.wins = 1 ∧ s.losses = 2 ∧ s.wins + s.losses = s.total_trades := by
  obtain ⟨s, hs, hw, hl, hp, _⟩ := win_rate_partition
    [⟨1, "A", Action.BUY, 10, none, 1, 10, 1, 0, TradeStatus.CLOSED, 1⟩,
     ⟨2, "A", Action.BUY, 10, none, 1, 10, -1, 0, TradeStatus.CLOSED, 2⟩,
     ⟨3, "A", Action.BUY, 10, none, 1, 10, 0, 0, TradeStatus.CLOSED, 3⟩]
    (by simp [closedTrades])
  refine ⟨s, hs, ?_, ?_, hp⟩
  · rw [hw]
    norm_num [closedTrades]
  · rw [hl]
    norm_num [closedTrades]

end Trend
